import Mathlib

/-!
A shallow embedding of the spaGO sequence-labeling label decoder
(`sequencelabeler.mergeEntities`, `filterNotEntities`) and of the RAN and
DeltaRNN recurrent cells (`ran.Processor`, `deltarnn.Processor`), with
theorems settling the specification claims.

Vectors are lists of rationals, the graph engine's elementwise operations
are `List.zipWith`, and the transcendental activations `tanh` and `sigmoid`
are abstract parameters applied pointwise: every claim under study is about
the algebraic structure of the computation, not about the activations.
Go run-time panics (out-of-range indexing, `log.Fatal`) are modelled by
`Option`, with `none` for the aborted computation.
-/

/-- Character offsets of a token: the `Offsets` pair `Start`/`End` carried
by a `tokenizers.StringOffsetsPair`. -/
structure Offsets where
  start : Int
  end_ : Int
deriving DecidableEq, Repr

/-- `sequencelabeler.TokenLabel`: a token's text (`String` field), its
character offsets, and its assigned label. -/
structure TokenLabel where
  string : String
  offsets : Offsets
  label : String
deriving DecidableEq, Repr

/-- The Go zero value `TokenLabel{}`. -/
def TokenLabel.zero : TokenLabel := ⟨"", ⟨0, 0⟩, ""⟩

/-- The mutable state of the `mergeEntities` loop: the output slice
`newTokens`, the in-progress accumulator `buf`, and the text buffer. -/
structure MergeSt where
  newTokens : List TokenLabel
  buf : TokenLabel
  text : String
deriving DecidableEq, Repr

/-- Go `token.Label[2:]` with its bounds check: `none` models the slice
out-of-range panic when the label has fewer than two characters. -/
def tagBody (token : TokenLabel) : Option (List Char) :=
  match token.label.data with
  | _ :: _ :: rest => some rest
  | _ => none

/-- One iteration of the `mergeEntities` loop body (the `switch` on
`token.Label[0]`).  `none` models the panic on an empty label. -/
def mergeStep (st : MergeSt) (token : TokenLabel) : Option MergeSt :=
  match token.label.data with
  | [] => none
  | c :: _ =>
    if c = 'O' then
      some { st with newTokens := st.newTokens ++ [token] }
    else if c = 'S' then
      match tagBody token with
      | none => none
      | some body =>
        some { st with newTokens := st.newTokens ++ [{ token with label := ⟨body⟩ }] }
    else if c = 'B' then
      match tagBody token with
      | none => none
      | some body =>
        some { st with
                 text := token.string,
                 buf := { string := "",
                          offsets := { start := token.offsets.start, end_ := 0 },
                          label := ⟨body⟩ } }
    else if c = 'I' then
      some { st with text := st.text ++ " " ++ token.string }
    else if c = 'E' then
      let newText := st.text ++ " " ++ token.string
      let newBuf := { st.buf with
                        string := newText,
                        offsets := { st.buf.offsets with end_ := token.offsets.end_ } }
      some { newTokens := st.newTokens ++ [newBuf], buf := newBuf, text := newText }
    else
      some st

/-- The `for _, token := range tokens` loop of `mergeEntities`. -/
def mergeLoop (st : MergeSt) : List TokenLabel → Option MergeSt
  | [] => some st
  | t :: ts =>
    match mergeStep st t with
    | none => none
    | some st' => mergeLoop st' ts

/-- `Model.mergeEntities`: runs the loop from the empty output, the zero
accumulator and the empty text buffer, and returns the output slice. -/
def mergeEntities (tokens : List TokenLabel) : Option (List TokenLabel) :=
  (mergeLoop ⟨[], TokenLabel.zero, ""⟩ tokens).map (·.newTokens)

/-- `Model.filterNotEntities`: drops every token whose label is exactly
`"O"`. -/
def filterNotEntities (tokens : List TokenLabel) : List TokenLabel :=
  tokens.filter (fun t => t.label != "O")

/-- C4: merging `["New","York","is","big"]` tagged `B-LOC, E-LOC, O, O`
with offsets `(0,3),(4,8),(9,11),(12,15)` yields the single merged entity
`{"New York", LOC, 0, 8}` followed by the two standalone `O` tokens, in
that order. -/
theorem merge_new_york_example :
    mergeEntities
      [⟨"New", ⟨0, 3⟩, "B-LOC"⟩, ⟨"York", ⟨4, 8⟩, "E-LOC"⟩,
       ⟨"is", ⟨9, 11⟩, "O"⟩, ⟨"big", ⟨12, 15⟩, "O"⟩] =
    some [⟨"New York", ⟨0, 8⟩, "LOC"⟩, ⟨"is", ⟨9, 11⟩, "O"⟩, ⟨"big", ⟨12, 15⟩, "O"⟩] := by
  decide

/-! ### Vectors and the graph engine's elementwise operations -/

/-- Elementwise sum (`Graph.Add`). -/
def vadd (a b : List ℚ) : List ℚ := List.zipWith (· + ·) a b

/-- Elementwise product (`Graph.Prod` / `ProdInPlace`). -/
def vmul (a b : List ℚ) : List ℚ := List.zipWith (· * ·) a b

/-- Matrix–vector product (`Graph.Mul` of a dense matrix and a vector). -/
def matVec (m : List (List ℚ)) (v : List ℚ) : List ℚ :=
  m.map (fun row => (List.zipWith (· * ·) row v).sum)

/-- Pointwise application of an activation function. -/
def vmap (f : ℚ → ℚ) (v : List ℚ) : List ℚ := v.map f

/-- `ReverseSub` against the scalar `1.0`: elementwise `1 - p`. -/
def vonesub (p : List ℚ) : List ℚ := p.map (fun q => 1 - q)

/-- `Dense.Max`: the largest entry of a vector. -/
def vmax (v : List ℚ) : ℚ := v.max?.getD 0

namespace Ran

/-- `ran.Model`: the RAN cell parameters. -/
structure Model where
  wIn : List (List ℚ)
  wInRec : List (List ℚ)
  bIn : List ℚ
  wFor : List (List ℚ)
  wForRec : List (List ℚ)
  bFor : List ℚ
  wCand : List (List ℚ)
  bCand : List ℚ

/-- `ran.State`: one step's gate, candidate, cell and output values. -/
structure State where
  inG : List ℚ
  forG : List ℚ
  cand : List ℚ
  c : List ℚ
  y : List ℚ
deriving DecidableEq, Repr

/-- Modelled from the spec: `nn.Affine` is supplied by the external graph
engine (not part of these sources); per the spec, an absent recurrent
operand is treated as zero, so the affine term reduces to `W·x + B`;
otherwise it is `W·x + B + WRec·yPrev`. -/
def affine (b : List ℚ) (w : List (List ℚ)) (x : List ℚ)
    (wRec : List (List ℚ)) (yPrev : Option (List ℚ)) : List ℚ :=
  match yPrev with
  | none => vadd (matVec w x) b
  | some yp => vadd (vadd (matVec w x) b) (matVec wRec yp)

/-- `ran.Processor.LastState`: the state at index `n-1`, or `none` when no
states have been processed. -/
def lastState (states : List State) : Option State :=
  if states.length = 0 then none else states[states.length - 1]?

/-- `ran.Processor.prev`: both return values are read from the `Y` field of
the last state (the source assigns `cPrev = s.Y`). -/
def prev (states : List State) : Option (List ℚ) × Option (List ℚ) :=
  match lastState states with
  | none => (none, none)
  | some s => (some s.y, some s.y)

/-- `ran.Processor.forward`: one RAN step, parametric in the engine's
`sigmoid` and `tanh`. -/
def forward (sigm tanh : ℚ → ℚ) (m : Model) (states : List State) (x : List ℚ) : State :=
  let yPrev := (prev states).1
  let cPrev := (prev states).2
  let inG := vmap sigm (affine m.bIn m.wIn x m.wInRec yPrev)
  let forG := vmap sigm (affine m.bFor m.wFor x m.wForRec yPrev)
  let cand := vadd (matVec m.wCand x) m.bCand
  let c0 := vmul inG cand
  let c :=
    match cPrev with
    | none => c0
    | some cp => vadd c0 (vmul forG cp)
  { inG := inG, forG := forG, cand := cand, c := c, y := vmap tanh c }

/-- `ran.Processor.Forward`: drives `forward` over the input sequence,
appending each new state to the history and collecting the outputs. -/
def forwardSeq (sigm tanh : ℚ → ℚ) (m : Model) (states : List State) :
    List (List ℚ) → List State × List (List ℚ)
  | [] => (states, [])
  | x :: xs =>
    let s := forward sigm tanh m states x
    let r := forwardSeq sigm tanh m (states ++ [s]) xs
    (r.1, s.y :: r.2)

/-- `ran.Processor.SetInitialState`: `log.Fatal` (modelled `none`) when one
or more states are already present, otherwise appends the given state. -/
def setInitialState (states : List State) (s : State) : Option (List State) :=
  if states.length > 0 then none else some (states ++ [s])

/-- The `InG` value of `states[k]` (`[]` out of range). -/
def inGAt (states : List State) (k : Nat) : List ℚ :=
  ((states.get? k).map (·.inG)).getD []

/-- The `ForG` value of `states[k]` (`[]` out of range). -/
def forGAt (states : List State) (k : Nat) : List ℚ :=
  ((states.get? k).map (·.forG)).getD []

/-- The `for k := i; k >= 0; k--` loop of `ran.Processor.scores`, with the
running `incForgetProd` accumulator threaded explicitly; returns the score
entries for indices `0..k` (in index order) together with the value of the
accumulator when the loop ends. -/
def scoresDown (states : List State) : Nat → List ℚ → List ℚ × List ℚ
  | 0, acc => ([vmax (vmul (inGAt states 0) acc)], acc)
  | k + 1, acc =>
    let sk := vmax (vmul (inGAt states (k + 1)) acc)
    let r := scoresDown states k (vmul acc (forGAt states (k + 1)))
    (r.1 ++ [sk], r.2)

/-- `ran.Processor.scores`: the score slice for row `i` (entries above `i`
keep the zero the slice was allocated with), paired with the final value of
the `incForgetProd` accumulator. -/
def scores (states : List State) (i : Nat) : List ℚ × List ℚ :=
  let r := scoresDown states i (forGAt states i)
  (r.1 ++ List.replicate (states.length - (i + 1)) 0, r.2)

/-- The elementwise product `forG[k] ⊙ forG[k-1] ⊙ … ⊙ forG[1]` of the
forget gates of steps `k` down to `1`. -/
def forGProdFrom1 (states : List State) : Nat → List ℚ
  | 0 => []
  | 1 => forGAt states 1
  | k + 2 => vmul (forGAt states (k + 2)) (forGProdFrom1 states (k + 1))

end Ran

namespace Delta

/-- `deltarnn.Model`: the DeltaRNN cell parameters. -/
structure Model where
  w : List (List ℚ)
  wRec : List (List ℚ)
  b : List ℚ
  bPart : List ℚ
  alpha : List ℚ
  beta1 : List ℚ
  beta2 : List ℚ

/-- `deltarnn.State`: one step's mixing terms, candidate, partition gate
and output (`D2` stays nil — `[]` — on the first step). -/
structure State where
  d1 : List ℚ
  d2 : List ℚ
  c : List ℚ
  p : List ℚ
  y : List ℚ
deriving DecidableEq, Repr

/-- `deltarnn.Processor.LastState`: the state at index `n-1`, or `none`
when no states have been processed. -/
def lastState (states : List State) : Option State :=
  if states.length = 0 then none else states[states.length - 1]?

/-- `deltarnn.Processor.prev`: the previous output, read from the `Y` field
of the last state. -/
def prev (states : List State) : Option (List ℚ) :=
  (lastState states).map (·.y)

/-- `deltarnn.Processor.forward`: one DeltaRNN step, parametric in the
engine's `sigmoid` and `tanh`. -/
def forward (sigm tanh : ℚ → ℚ) (m : Model) (states : List State) (x : List ℚ) : State :=
  let wx := matVec m.w x
  match prev states with
  | none =>
    let d1 := vmul m.beta1 wx
    let c := vmap tanh (vadd d1 m.b)
    let p := vmap sigm (vadd wx m.bPart)
    { d1 := d1, d2 := [], c := c, p := p, y := vmap tanh (vmul p c) }
  | some yPrev =>
    let wyRec := matVec m.wRec yPrev
    let d1 := vadd (vmul m.beta1 wx) (vmul m.beta2 wyRec)
    let d2 := vmul (vmul m.alpha wx) wyRec
    let c := vmap tanh (vadd (vadd d1 d2) m.b)
    let p := vmap sigm (vadd wx m.bPart)
    { d1 := d1, d2 := d2, c := c, p := p,
      y := vmap tanh (vadd (vmul p c) (vmul (vonesub p) yPrev)) }

/-- `deltarnn.Processor.SetInitialState`: `log.Fatal` (modelled `none`)
when one or more states are already present, otherwise appends the state. -/
def setInitialState (states : List State) (s : State) : Option (List State) :=
  if states.length > 0 then none else some (states ++ [s])

end Delta

/-! ### Helper lemmas -/

theorem ran_lastState_concat (hist : List Ran.State) (s : Ran.State) :
    Ran.lastState (hist ++ [s]) = some s := by
  simp [Ran.lastState, List.getElem?_append_right]

theorem ran_prev_concat (hist : List Ran.State) (s : Ran.State) :
    Ran.prev (hist ++ [s]) = (some s.y, some s.y) := by
  unfold Ran.prev
  rw [ran_lastState_concat]

theorem delta_lastState_concat (hist : List Delta.State) (s : Delta.State) :
    Delta.lastState (hist ++ [s]) = some s := by
  simp [Delta.lastState, List.getElem?_append_right]

theorem delta_prev_concat (hist : List Delta.State) (s : Delta.State) :
    Delta.prev (hist ++ [s]) = some s.y := by
  unfold Delta.prev
  rw [delta_lastState_concat]
  rfl

theorem vmul_assoc (a : List ℚ) : ∀ b c : List ℚ, vmul (vmul a b) c = vmul a (vmul b c) := by
  induction a with
  | nil => intro b c; rfl
  | cons x xs ih =>
    intro b c
    cases b with
    | nil => rfl
    | cons y ys =>
      cases c with
      | nil => rfl
      | cons z zs =>
        have h := ih ys zs
        simp only [vmul, List.zipWith_cons_cons] at h ⊢
        rw [mul_assoc, h]

theorem scoresDown_snd (states : List Ran.State) :
    ∀ (k : Nat) (acc : List ℚ),
      (Ran.scoresDown states (k + 1) acc).2 = vmul acc (Ran.forGProdFrom1 states (k + 1)) := by
  intro k
  induction k with
  | zero => intro acc; rfl
  | succ n ih =>
    intro acc
    have h1 : (Ran.scoresDown states (n + 1 + 1) acc).2
        = (Ran.scoresDown states (n + 1) (vmul acc (Ran.forGAt states (n + 1 + 1)))).2 := rfl
    rw [h1, ih, vmul_assoc]
    rfl

/-! ### Claims about the recurrent cells -/

/-- C7: on the first RAN step (no previous state) both gate affine terms
reduce to `W·x + B` (the recurrent contributions are absent) and the cell
value is exactly `inG ⊙ cand`: no forget contribution appears. -/
theorem ran_step_first (sigm tanh : ℚ → ℚ) (m : Ran.Model) (x : List ℚ) :
    (Ran.forward sigm tanh m [] x).inG = vmap sigm (vadd (matVec m.wIn x) m.bIn) ∧
    (Ran.forward sigm tanh m [] x).forG = vmap sigm (vadd (matVec m.wFor x) m.bFor) ∧
    (Ran.forward sigm tanh m [] x).c =
      vmul (Ran.forward sigm tanh m [] x).inG (Ran.forward sigm tanh m [] x).cand :=
  ⟨rfl, rfl, rfl⟩

/-- A 1-dimensional RAN model with all parameters zero, used to exhibit the
`cPrev` slip of `ran.Processor.prev`. -/
def ranBugM : Ran.Model := ⟨[[0]], [[0]], [0], [[0]], [[0]], [0], [[0]], [0]⟩

/-- A previous state whose cell value (`[0]`) and output (`[1]`) differ. -/
def ranBugPrev : Ran.State := ⟨[0], [0], [0], [0], [1]⟩

/-- The RAN step taken from `ranBugPrev` (constant-one activations). -/
def ranBugStep : Ran.State :=
  Ran.forward (fun _ => 1) (fun _ => 1) ranBugM [ranBugPrev] [0]

/-- C1: the code computes `c = inG ⊙ cand + forG ⊙ yPrev` — the *output*
of the previous step — because `ran.Processor.prev` assigns `cPrev = s.Y`;
at a state whose previous `C` and `Y` differ, `c` is *not*
`inG ⊙ cand + forG ⊙ cPrev` with `cPrev` the previous cell value, contrary
to the claim and to the function's own comment `c = inG * c + forG * cPrev`. -/
theorem ran_cPrev_divergence :
    ranBugStep.c =
      vadd (vmul ranBugStep.inG ranBugStep.cand) (vmul ranBugStep.forG ranBugPrev.y) ∧
    ranBugStep.c ≠
      vadd (vmul ranBugStep.inG ranBugStep.cand) (vmul ranBugStep.forG ranBugPrev.c) := by
  constructor <;>
    simp [ranBugStep, ranBugM, ranBugPrev, Ran.forward, Ran.prev, Ran.lastState,
          Ran.affine, vadd, vmul, vmap, matVec]

/-- C5: a DeltaRNN step with a previous output present computes
`d1 = Beta1 ⊙ wx + Beta2 ⊙ wyRec`, `d2 = Alpha ⊙ wx ⊙ wyRec`,
`c = tanh(d1 + d2 + B)`, `partitionGate = sigmoid(wx + BPart)` and
`y = tanh(partitionGate ⊙ c + (1 − partitionGate) ⊙ yPrev)`, where
`wx = W·x` and `wyRec = WRec·yPrev`. -/
theorem deltarnn_step_recurrent (sigm tanh : ℚ → ℚ) (m : Delta.Model)
    (hist : List Delta.State) (sPrev : Delta.State) (x : List ℚ) :
    (Delta.forward sigm tanh m (hist ++ [sPrev]) x).d1 =
      vadd (vmul m.beta1 (matVec m.w x)) (vmul m.beta2 (matVec m.wRec sPrev.y)) ∧
    (Delta.forward sigm tanh m (hist ++ [sPrev]) x).d2 =
      vmul (vmul m.alpha (matVec m.w x)) (matVec m.wRec sPrev.y) ∧
    (Delta.forward sigm tanh m (hist ++ [sPrev]) x).c =
      vmap tanh (vadd (vadd (Delta.forward sigm tanh m (hist ++ [sPrev]) x).d1
                            (Delta.forward sigm tanh m (hist ++ [sPrev]) x).d2) m.b) ∧
    (Delta.forward sigm tanh m (hist ++ [sPrev]) x).p =
      vmap sigm (vadd (matVec m.w x) m.bPart) ∧
    (Delta.forward sigm tanh m (hist ++ [sPrev]) x).y =
      vmap tanh (vadd (vmul (Delta.forward sigm tanh m (hist ++ [sPrev]) x).p
                            (Delta.forward sigm tanh m (hist ++ [sPrev]) x).c)
                      (vmul (vonesub (Delta.forward sigm tanh m (hist ++ [sPrev]) x).p)
                            sPrev.y)) := by
  unfold Delta.forward
  rw [delta_prev_concat]
  exact ⟨rfl, rfl, rfl, rfl, rfl⟩

/-- C6: the first DeltaRNN step (no previous output) computes
`y = tanh(partitionGate ⊙ tanh(Beta1 ⊙ (W·x) + B))` with
`partitionGate = sigmoid(W·x + BPart)`; no `d2` cross term (the field stays
nil) and no `(1 − partitionGate)` interpolation term appears. -/
theorem deltarnn_step_first (sigm tanh : ℚ → ℚ) (m : Delta.Model) (x : List ℚ) :
    (Delta.forward sigm tanh m [] x).y =
      vmap tanh (vmul (Delta.forward sigm tanh m [] x).p
                      (vmap tanh (vadd (vmul m.beta1 (matVec m.w x)) m.b))) ∧
    (Delta.forward sigm tanh m [] x).p = vmap sigm (vadd (matVec m.w x) m.bPart) ∧
    (Delta.forward sigm tanh m [] x).d2 = [] :=
  ⟨rfl, rfl, rfl⟩

/-- C8: for both the RAN and the DeltaRNN encoder, `SetInitialState` with
one or more states already present is a fatal precondition violation
(modelled `none`), while calling it before any step seeds the history with
the given state. -/
theorem set_initial_state_spec (rs : List Ran.State) (r0 : Ran.State)
    (ds : List Delta.State) (d0 : Delta.State) (hr : rs ≠ []) (hd : ds ≠ []) :
    Ran.setInitialState rs r0 = none ∧
    Ran.setInitialState [] r0 = some [r0] ∧
    Delta.setInitialState ds d0 = none ∧
    Delta.setInitialState [] d0 = some [d0] := by
  refine ⟨?_, rfl, ?_, rfl⟩
  · unfold Ran.setInitialState
    rw [if_pos (List.length_pos.mpr hr)]
  · unfold Delta.setInitialState
    rw [if_pos (List.length_pos.mpr hd)]

/-- Witness for C8 at a concrete one-element history on each side. -/
theorem set_initial_state_spec_wit :
    Ran.setInitialState [⟨[], [], [], [], []⟩] ⟨[], [], [], [], []⟩ = none ∧
    Ran.setInitialState [] ⟨[], [], [], [], []⟩ = some [⟨[], [], [], [], []⟩] ∧
    Delta.setInitialState [⟨[], [], [], [], []⟩] ⟨[], [], [], [], []⟩ = none ∧
    Delta.setInitialState [] ⟨[], [], [], [], []⟩ = some [⟨[], [], [], [], []⟩] :=
  set_initial_state_spec [⟨[], [], [], [], []⟩] ⟨[], [], [], [], []⟩
    [⟨[], [], [], [], []⟩] ⟨[], [], [], [], []⟩ (by decide) (by decide)

/-- RAN parameters whose input and forget gates copy the input (with
identity activations): `WIn = WFor = [[1]]`, everything else zero. -/
def ranScoreM : Ran.Model := ⟨[[1]], [[0]], [0], [[1]], [[0]], [0], [[0]], [0]⟩

/-- The state history obtained by encoding the sequence `[2], [3]` with
`ranScoreM` and identity activations: `forG[0] = [2]`, `forG[1] = [3]`. -/
def ranScoreStates : List Ran.State :=
  (Ran.forwardSeq (fun q => q) (fun q => q) ranScoreM [] [[2], [3]]).1

/-- C2 counterexample: for the encoded sequence `ranScoreStates` and row
`i = 1`, the accumulator after the full backward pass is
`forG[1] ⊙ forG[1] = [9]`, not the claimed `forG[0] ⊙ forG[1] = [6]`. -/
theorem ran_scores_acc_cex :
    (Ran.scores ranScoreStates 1).2 ≠
      vmul (Ran.forGAt ranScoreStates 0) (Ran.forGAt ranScoreStates 1) := by
  simp [ranScoreStates, ranScoreM, Ran.forwardSeq, Ran.forward, Ran.prev,
        Ran.lastState, Ran.affine, Ran.scores, Ran.scoresDown, Ran.forGAt,
        Ran.inGAt, vadd, vmul, vmap, matVec, vmax]

/-- C2 amended: the accumulator after the full backward pass for row `i`
equals `forG[i] ⊙ forG[i] ⊙ forG[i−1] ⊙ … ⊙ forG[1]` — the seed `forG[i]`
times the product of the forget gates of steps `i` down to `1` (so
`forG[0]` is never multiplied in and `forG[i]` appears twice); for row `0`
it is just `forG[0]`. -/
theorem ran_scores_acc_amended (states : List Ran.State) (i : Nat) :
    (Ran.scores states 0).2 = Ran.forGAt states 0 ∧
    (Ran.scores states (i + 1)).2 =
      vmul (Ran.forGAt states (i + 1)) (Ran.forGProdFrom1 states (i + 1)) :=
  ⟨rfl, scoresDown_snd states i (Ran.forGAt states (i + 1))⟩

/-! ### Claims about the label decoder loop -/

/-- C9: a token whose label starts with a character other than
`O`, `S`, `B`, `I`, `E` contributes nothing: the loop state (output,
accumulator and text buffer) is unchanged and decoding continues with the
remaining tokens. -/
theorem merge_unknown_tag_skipped (st : MergeSt) (token : TokenLabel) (c : Char)
    (hc : token.label.data.head? = some c)
    (hO : c ≠ 'O') (hS : c ≠ 'S') (hB : c ≠ 'B') (hI : c ≠ 'I') (hE : c ≠ 'E') :
    mergeStep st token = some st ∧
    ∀ rest : List TokenLabel, mergeLoop st (token :: rest) = mergeLoop st rest := by
  have h : mergeStep st token = some st := by
    cases hd : token.label.data with
    | nil => rw [hd] at hc; simp at hc
    | cons c' l =>
      rw [hd] at hc
      simp only [List.head?_cons, Option.some.injEq] at hc
      subst hc
      simp [mergeStep, hd, hO, hS, hB, hI, hE]
  exact ⟨h, fun rest => by simp [mergeLoop, h]⟩

/-- Witness for C9 at the tag `X-FOO`. -/
theorem merge_unknown_tag_skipped_wit :
    mergeStep ⟨[], TokenLabel.zero, ""⟩ ⟨"x", ⟨0, 1⟩, "X-FOO"⟩ = some ⟨[], TokenLabel.zero, ""⟩ ∧
    ∀ rest : List TokenLabel,
      mergeLoop ⟨[], TokenLabel.zero, ""⟩ (⟨"x", ⟨0, 1⟩, "X-FOO"⟩ :: rest) =
        mergeLoop ⟨[], TokenLabel.zero, ""⟩ rest :=
  merge_unknown_tag_skipped ⟨[], TokenLabel.zero, ""⟩ ⟨"x", ⟨0, 1⟩, "X-FOO"⟩ 'X'
    (by decide) (by decide) (by decide) (by decide) (by decide) (by decide)

/-- C10: an output token is appended only while processing a token whose
tag starts with `O`, `S` or `E`; consequently an entity opened by a `B`
tag and never closed by an `E` tag is absent from the output, as the
concrete unterminated run `B-LOC, I-LOC` (which merges to the empty
output) shows. -/
theorem merge_emit_only_OSE (st : MergeSt) (token : TokenLabel) (st' : MergeSt)
    (h : mergeStep st token = some st')
    (hO : token.label.data.head? ≠ some 'O')
    (hS : token.label.data.head? ≠ some 'S')
    (hE : token.label.data.head? ≠ some 'E') :
    st'.newTokens = st.newTokens ∧
    mergeEntities [⟨"New", ⟨0, 3⟩, "B-LOC"⟩, ⟨"York", ⟨4, 8⟩, "I-LOC"⟩] = some [] := by
  refine ⟨?_, by decide⟩
  cases hd : token.label.data with
  | nil => simp [mergeStep, hd] at h
  | cons c l =>
    rw [hd] at hO hS hE
    simp only [ne_eq, List.head?_cons, Option.some.injEq] at hO hS hE
    simp only [mergeStep, hd] at h
    rw [if_neg hO, if_neg hS] at h
    by_cases hB : c = 'B'
    · rw [if_pos hB] at h
      cases htb : tagBody token with
      | none => rw [htb] at h; simp at h
      | some body =>
        rw [htb] at h
        simp only [Option.some.injEq] at h
        subst h
        rfl
    · rw [if_neg hB] at h
      by_cases hI : c = 'I'
      · rw [if_pos hI] at h
        simp only [Option.some.injEq] at h
        subst h
        rfl
      · rw [if_neg hI, if_neg hE] at h
        simp only [Option.some.injEq] at h
        subst h
        rfl

/-! ### Well-formed BIOES sequences and the merge/filter round trip -/

/-- A string whose character list is not `['O']` is not `"O"`. -/
theorem mk_ne_O {x : List Char} (hx : x ≠ ['O']) : (⟨x⟩ : String) ≠ "O" :=
  fun he => hx (congrArg String.data he)

/-- A string whose first character is not `O` is not `"O"`. -/
theorem ne_O_of_head {s : String} {c : Char} {l : List Char}
    (hd : s.data = c :: l) (hc : c ≠ 'O') : s ≠ "O" := by
  intro he
  rw [he] at hd
  have h2 : (['O'] : List Char) = c :: l := hd
  injection h2 with h3 _
  exact hc h3.symm

theorem filter_cons_O (t : TokenLabel) (ts : List TokenLabel) (h : t.label = "O") :
    filterNotEntities (t :: ts) = filterNotEntities ts := by
  simp [filterNotEntities, h]

theorem filter_cons_keep (t : TokenLabel) (ts : List TokenLabel) (h : t.label ≠ "O") :
    filterNotEntities (t :: ts) = t :: filterNotEntities ts := by
  simp [filterNotEntities, h]

theorem filter_all_keep (inner : List TokenLabel) (h : ∀ i ∈ inner, i.label ≠ "O") :
    ∀ rest : List TokenLabel,
      filterNotEntities (inner ++ rest) = inner ++ filterNotEntities rest := by
  induction inner with
  | nil => intro rest; rfl
  | cons i is ih =>
    intro rest
    rw [List.cons_append, filter_cons_keep i _ (h i (by simp)),
        ih (fun j hj => h j (by simp [hj])) rest, List.cons_append]

theorem mergeStep_O (st : MergeSt) (t : TokenLabel) (h : t.label = "O") :
    mergeStep st t = some ⟨st.newTokens ++ [t], st.buf, st.text⟩ := by
  have hd : t.label.data = ['O'] := by rw [h]
  simp [mergeStep, hd]

theorem mergeStep_S (st : MergeSt) (t : TokenLabel) (x : List Char)
    (hd : t.label.data = 'S' :: '-' :: x) :
    mergeStep st t = some ⟨st.newTokens ++ [⟨t.string, t.offsets, ⟨x⟩⟩], st.buf, st.text⟩ := by
  simp [mergeStep, hd, tagBody]

theorem mergeStep_B (st : MergeSt) (t : TokenLabel) (x : List Char)
    (hd : t.label.data = 'B' :: '-' :: x) :
    mergeStep st t = some ⟨st.newTokens, ⟨"", ⟨t.offsets.start, 0⟩, ⟨x⟩⟩, t.string⟩ := by
  simp [mergeStep, hd, tagBody]

theorem mergeStep_I (st : MergeSt) (t : TokenLabel) (l : List Char)
    (hd : t.label.data = 'I' :: l) :
    mergeStep st t = some ⟨st.newTokens, st.buf, st.text ++ " " ++ t.string⟩ := by
  simp [mergeStep, hd]

theorem mergeStep_E (st : MergeSt) (t : TokenLabel) (l : List Char)
    (hd : t.label.data = 'E' :: l) :
    mergeStep st t =
      some ⟨st.newTokens ++
              [⟨st.text ++ " " ++ t.string, ⟨st.buf.offsets.start, t.offsets.end_⟩, st.buf.label⟩],
            ⟨st.text ++ " " ++ t.string, ⟨st.buf.offsets.start, t.offsets.end_⟩, st.buf.label⟩,
            st.text ++ " " ++ t.string⟩ := by
  simp [mergeStep, hd]

theorem mergeLoop_cons (st : MergeSt) (t : TokenLabel) (ts : List TokenLabel) (st' : MergeSt)
    (h : mergeStep st t = some st') : mergeLoop st (t :: ts) = mergeLoop st' ts := by
  simp [mergeLoop, h]

/-- The text accumulated by a run of `I` tokens: each appends a space and
its own text to the buffer. -/
def appendInner (tx : String) (inner : List TokenLabel) : String :=
  inner.foldl (fun a i => a ++ " " ++ i.string) tx

theorem mergeLoop_inner (x : List Char) :
    ∀ inner : List TokenLabel, (∀ i ∈ inner, i.label.data = 'I' :: '-' :: x) →
      ∀ (acc : List TokenLabel) (buf : TokenLabel) (tx : String) (rest : List TokenLabel),
        mergeLoop ⟨acc, buf, tx⟩ (inner ++ rest) =
          mergeLoop ⟨acc, buf, appendInner tx inner⟩ rest := by
  intro inner
  induction inner with
  | nil => intro _ acc buf tx rest; rfl
  | cons i is ih =>
    intro hI acc buf tx rest
    rw [List.cons_append,
        mergeLoop_cons _ _ _ _ (mergeStep_I _ _ _ (hI i (by simp))),
        ih (fun j hj => hI j (by simp [hj])) acc buf (tx ++ " " ++ i.string) rest]
    rfl

/-- A well-formed BIOES tag sequence: a concatenation of `O` tokens,
single-token entities `S-<type>`, and runs `B-<type> (I-<type>)* E-<type>`,
where the entity type is not the reserved tag `O`. -/
inductive BioesWF : List TokenLabel → Prop
  | nil : BioesWF []
  | outside (t : TokenLabel) (ts : List TokenLabel) :
      t.label = "O" → BioesWF ts → BioesWF (t :: ts)
  | single (t : TokenLabel) (x : List Char) (ts : List TokenLabel) :
      t.label.data = 'S' :: '-' :: x → x ≠ ['O'] → BioesWF ts → BioesWF (t :: ts)
  | entity (b : TokenLabel) (inner : List TokenLabel) (e : TokenLabel) (x : List Char)
      (ts : List TokenLabel) :
      b.label.data = 'B' :: '-' :: x → x ≠ ['O'] →
      (∀ i ∈ inner, i.label.data = 'I' :: '-' :: x) →
      e.label.data = 'E' :: '-' :: x →
      BioesWF ts → BioesWF (b :: inner ++ e :: ts)

/-- Running `mergeEntities`' loop on a well-formed sequence and on its
`O`-filtered version: both succeed, reach the same accumulator and text
buffer, and the filtered run's output is the `O`-filtered output of the
plain run, whatever the starting accumulator state. -/
theorem mergeLoop_wf (ts0 : List TokenLabel) (hwf : BioesWF ts0) :
    ∀ (buf : TokenLabel) (tx : String) (acc1 acc2 : List TokenLabel),
      ∃ (out : List TokenLabel) (buf' : TokenLabel) (tx' : String),
        mergeLoop ⟨acc1, buf, tx⟩ ts0 = some ⟨acc1 ++ out, buf', tx'⟩ ∧
        mergeLoop ⟨acc2, buf, tx⟩ (filterNotEntities ts0) =
          some ⟨acc2 ++ filterNotEntities out, buf', tx'⟩ := by
  induction hwf with
  | nil =>
    intro buf tx acc1 acc2
    exact ⟨[], buf, tx, by simp [mergeLoop, filterNotEntities], by simp [mergeLoop, filterNotEntities]⟩
  | outside t ts hO hwf' ih =>
    intro buf tx acc1 acc2
    obtain ⟨out, buf', tx', h1, h2⟩ := ih buf tx (acc1 ++ [t]) acc2
    refine ⟨t :: out, buf', tx', ?_, ?_⟩
    · rw [mergeLoop_cons _ _ _ _ (mergeStep_O _ _ hO), h1]
      simp
    · rw [filter_cons_O t ts hO, filter_cons_O t out hO]
      exact h2
  | single t x ts hd hx hwf' ih =>
    intro buf tx acc1 acc2
    obtain ⟨out, buf', tx', h1, h2⟩ :=
      ih buf tx (acc1 ++ [⟨t.string, t.offsets, ⟨x⟩⟩]) (acc2 ++ [⟨t.string, t.offsets, ⟨x⟩⟩])
    refine ⟨⟨t.string, t.offsets, ⟨x⟩⟩ :: out, buf', tx', ?_, ?_⟩
    · rw [mergeLoop_cons _ _ _ _ (mergeStep_S _ _ _ hd), h1]
      simp
    · rw [filter_cons_keep t ts (ne_O_of_head hd (by decide)),
          mergeLoop_cons _ _ _ _ (mergeStep_S _ _ _ hd), h2,
          filter_cons_keep _ out (mk_ne_O hx)]
      simp
  | entity b inner e x ts hb hx hI he hwf' ih =>
    intro buf tx acc1 acc2
    obtain ⟨out, buf', tx', h1, h2⟩ :=
      ih ⟨appendInner b.string inner ++ " " ++ e.string, ⟨b.offsets.start, e.offsets.end_⟩, ⟨x⟩⟩
         (appendInner b.string inner ++ " " ++ e.string)
         (acc1 ++ [⟨appendInner b.string inner ++ " " ++ e.string,
                    ⟨b.offsets.start, e.offsets.end_⟩, ⟨x⟩⟩])
         (acc2 ++ [⟨appendInner b.string inner ++ " " ++ e.string,
                    ⟨b.offsets.start, e.offsets.end_⟩, ⟨x⟩⟩])
    refine ⟨⟨appendInner b.string inner ++ " " ++ e.string,
             ⟨b.offsets.start, e.offsets.end_⟩, ⟨x⟩⟩ :: out, buf', tx', ?_, ?_⟩
    · rw [List.cons_append,
          mergeLoop_cons _ _ _ _ (mergeStep_B _ _ _ hb),
          mergeLoop_inner x inner hI,
          mergeLoop_cons _ _ _ _ (mergeStep_E _ _ _ he), h1]
      simp
    · rw [List.cons_append,
          filter_cons_keep b _ (ne_O_of_head hb (by decide)),
          filter_all_keep inner (fun i hi => ne_O_of_head (hI i hi) (by decide)),
          filter_cons_keep e ts (ne_O_of_head he (by decide)),
          mergeLoop_cons _ _ _ _ (mergeStep_B _ _ _ hb),
          mergeLoop_inner x inner hI,
          mergeLoop_cons _ _ _ _ (mergeStep_E _ _ _ he), h2,
          filter_cons_keep _ out (mk_ne_O hx)]
      simp

/-- C3: on any well-formed BIOES sequence, merging then filtering
non-entities gives the same result as filtering then merging: both runs
succeed, and the filtered merge output equals the merge of the filtered
input, so the order of the two operations does not matter. -/
theorem merge_filter_comm (ts : List TokenLabel) (hwf : BioesWF ts) :
    ∃ out, mergeEntities ts = some out ∧
      mergeEntities (filterNotEntities ts) = some (filterNotEntities out) := by
  obtain ⟨out, buf', tx', h1, h2⟩ := mergeLoop_wf ts hwf TokenLabel.zero "" [] []
  exact ⟨out, by simp [mergeEntities, h1], by simp [mergeEntities, h2]⟩

/-- Witness for C3 on the well-formed sequence `B-LOC, E-LOC, O`. -/
theorem merge_filter_comm_wit :
    ∃ out,
      mergeEntities [⟨"New", ⟨0, 3⟩, "B-LOC"⟩, ⟨"York", ⟨4, 8⟩, "E-LOC"⟩,
                     ⟨"is", ⟨9, 11⟩, "O"⟩] = some out ∧
      mergeEntities (filterNotEntities
          [⟨"New", ⟨0, 3⟩, "B-LOC"⟩, ⟨"York", ⟨4, 8⟩, "E-LOC"⟩,
           ⟨"is", ⟨9, 11⟩, "O"⟩]) = some (filterNotEntities out) :=
  merge_filter_comm _
    (BioesWF.entity ⟨"New", ⟨0, 3⟩, "B-LOC"⟩ [] ⟨"York", ⟨4, 8⟩, "E-LOC"⟩
      ['L', 'O', 'C'] [⟨"is", ⟨9, 11⟩, "O"⟩] rfl (by decide) (by simp) rfl
      (BioesWF.outside ⟨"is", ⟨9, 11⟩, "O"⟩ [] rfl BioesWF.nil))

/-- Witness for C10: the `B-LOC` step from the initial loop state appends
nothing to the output. -/
theorem merge_emit_only_OSE_wit :
    (⟨[], ⟨"", ⟨0, 0⟩, "LOC"⟩, "New"⟩ : MergeSt).newTokens =
      (⟨[], TokenLabel.zero, ""⟩ : MergeSt).newTokens ∧
    mergeEntities [⟨"New", ⟨0, 3⟩, "B-LOC"⟩, ⟨"York", ⟨4, 8⟩, "I-LOC"⟩] = some [] :=
  merge_emit_only_OSE ⟨[], TokenLabel.zero, ""⟩ ⟨"New", ⟨0, 3⟩, "B-LOC"⟩
    ⟨[], ⟨"", ⟨0, 0⟩, "LOC"⟩, "New"⟩ (by decide) (by decide) (by decide) (by decide)
